import Mathlib

/-!
Verification of the presence-and-fanout layer of the `topology` backend:
`ConnectionManager` (app/utils/websocket_manager.py) and the presence part of
`RedisManager` (app/utils/redis_manager.py).

Python dictionaries are embedded as association lists over `String` keys with
first-occurrence lookup; a well-formedness predicate (`WF`) records that the
key list is duplicate-free, which every Python dict satisfies by construction.
Python sets of strings are embedded as lists; `set.add` appends when absent,
`set.discard` filters.  WebSocket channel handles are embedded as `Nat`
identifiers; a channel write raises an exception exactly when the channel is
in a given `broken` set, which models the `try/except` blocks around
`send_json`.
-/

/-- A Python `dict` with `String` keys, as an association list. -/
abbrev Dict (α : Type) := List (String × α)

/-- `d[k]` lookup returning `none` when the key is absent (first occurrence). -/
def dictGet {α : Type} (d : Dict α) (k : String) : Option α :=
  match d with
  | [] => none
  | (k', v) :: rest => if k' = k then some v else dictGet rest k

/-- `d[k] = v`: replace the existing entry for `k`, or append a new one. -/
def dictSet {α : Type} (d : Dict α) (k : String) (v : α) : Dict α :=
  match d with
  | [] => [(k, v)]
  | (k', v') :: rest => if k' = k then (k, v) :: rest else (k', v') :: dictSet rest k v

/-- `del d[k]`: remove the entry for `k` (first occurrence; total). -/
def dictDel {α : Type} (d : Dict α) (k : String) : Dict α :=
  match d with
  | [] => []
  | (k', v') :: rest => if k' = k then rest else (k', v') :: dictDel rest k

/-- The list of keys of a dict. -/
def keys {α : Type} (d : Dict α) : List String := d.map Prod.fst

/-- Python `set.add` on a set of strings embedded as a list. -/
def setAdd (s : List String) (x : String) : List String :=
  if x ∈ s then s else s ++ [x]

/-- Python `set.discard` on a set of strings embedded as a list. -/
def setDiscard (s : List String) (x : String) : List String :=
  s.filter (fun y => y ≠ x)

/-- State of `ConnectionManager` (websocket_manager.py lines 13-19):
`active_connections : {user_id: WebSocket}`, `rooms : {room_id: Set[user_id]}`,
`user_rooms : {user_id: Set[room_id]}`. -/
structure ConnectionManager where
  active_connections : Dict Nat
  rooms : Dict (List String)
  user_rooms : Dict (List String)
deriving DecidableEq, Repr

/-- `ConnectionManager.__init__`: all three maps empty. -/
def initialManager : ConnectionManager := ⟨[], [], []⟩

/-- `ConnectionManager.connect` (lines 21-28): store the channel under
`user_id` (replacing any existing entry) and initialize the user's room set
if absent.  The `websocket.accept()` call is an external channel effect with
no registry state; `connect` is total (it never raises). -/
def connect (m : ConnectionManager) (websocket : Nat) (user_id : String) :
    ConnectionManager :=
  let m1 := { m with active_connections := dictSet m.active_connections user_id websocket }
  match dictGet m1.user_rooms user_id with
  | some _ => m1
  | none => { m1 with user_rooms := dictSet m1.user_rooms user_id [] }

/-- One iteration of the cleanup loop in `ConnectionManager.disconnect`
(lines 37-42): discard `u` from the room's member set if the room exists,
deleting the room when its member set becomes empty. -/
def dropUserFromRoom (u : String) (rs : Dict (List String)) (room_id : String) :
    Dict (List String) :=
  match dictGet rs room_id with
  | none => rs
  | some members =>
    let members' := setDiscard members u
    if members' = [] then dictDel rs room_id else dictSet rs room_id members'

/-- `ConnectionManager.disconnect` (lines 30-44): delete the connection entry
if present, then remove the user from every room in its room set (deleting
emptied rooms) and delete the user's room set. -/
def disconnect (m : ConnectionManager) (user_id : String) : ConnectionManager :=
  let m1 :=
    if (dictGet m.active_connections user_id).isSome then
      { m with active_connections := dictDel m.active_connections user_id }
    else m
  match dictGet m1.user_rooms user_id with
  | none => m1
  | some rms =>
    { m1 with
      rooms := rms.foldl (dropUserFromRoom user_id) m1.rooms,
      user_rooms := dictDel m1.user_rooms user_id }

/-- `ConnectionManager.join_room` (lines 72-82): ensure the room's member set
exists and add the user to it; ensure the user's room set exists and add the
room to it. -/
def join_room (m : ConnectionManager) (user_id room_id : String) :
    ConnectionManager :=
  let members := (dictGet m.rooms room_id).getD []
  let rs := (dictGet m.user_rooms user_id).getD []
  { m with
    rooms := dictSet m.rooms room_id (setAdd members user_id),
    user_rooms := dictSet m.user_rooms user_id (setAdd rs room_id) }

/-- `ConnectionManager.leave_room` (lines 84-93): if the room exists, discard
the user from its member set and delete the room when it becomes empty; then
discard the room from the user's room set if that set exists. -/
def leave_room (m : ConnectionManager) (user_id room_id : String) :
    ConnectionManager :=
  let m1 :=
    match dictGet m.rooms room_id with
    | none => m
    | some members =>
      let members' := setDiscard members user_id
      if members' = [] then { m with rooms := dictDel m.rooms room_id }
      else { m with rooms := dictSet m.rooms room_id members' }
  match dictGet m1.user_rooms user_id with
  | none => m1
  | some rs =>
    { m1 with user_rooms := dictSet m1.user_rooms user_id (setDiscard rs room_id) }

/-- `ConnectionManager.get_room_users` (lines 114-118). -/
def get_room_users (m : ConnectionManager) (room_id : String) : List String :=
  match dictGet m.rooms room_id with
  | some members => members
  | none => []

/-- `ConnectionManager.get_user_rooms` (lines 120-124). -/
def get_user_rooms (m : ConnectionManager) (user_id : String) : List String :=
  match dictGet m.user_rooms user_id with
  | some rs => rs
  | none => []

/-- `ConnectionManager.is_user_online` (lines 126-128). -/
def is_user_online (m : ConnectionManager) (user_id : String) : Bool :=
  (dictGet m.active_connections user_id).isSome

/-- A successful channel write performed by a delivery operation:
recipient user id, the channel written to, and the message. -/
abbrev Delivery (μ : Type) := String × Nat × μ

/-- `ConnectionManager.send_personal_message` (lines 46-54).  The Python
function body has no `return` statement, so every path returns `None`; the
third component records that returned value (typed at the boolean the spec
expects, so `none` is Python's `None`).  A write on a channel in `broken`
raises, which the code answers by calling `disconnect` on the target. -/
def send_personal_message {μ : Type} (broken : List Nat) (m : ConnectionManager)
    (message : μ) (user_id : String) :
    ConnectionManager × List (Delivery μ) × Option Bool :=
  match dictGet m.active_connections user_id with
  | none => (m, [], none)
  | some websocket =>
    if websocket ∈ broken then (disconnect m user_id, [], none)
    else (m, [(user_id, websocket, message)], none)

/-- The accumulation loop of `broadcast` (lines 58-66): one pass over the
connection entries, collecting successful deliveries and the users whose
channel write raised. -/
def broadcastPass {μ : Type} (broken : List Nat) (message : μ)
    (exclude_user : Option String) (entries : List (String × Nat)) :
    List (Delivery μ) × List String :=
  entries.foldl
    (fun acc p =>
      if some p.1 ≠ exclude_user then
        if p.2 ∈ broken then (acc.1, acc.2 ++ [p.1])
        else (acc.1 ++ [(p.1, p.2, message)], acc.2)
      else acc)
    ([], [])

/-- `ConnectionManager.broadcast` (lines 56-70): deliver to every connection
except `exclude_user`; writes that raise add the user to a disconnect list
which is processed after the loop. -/
def broadcast {μ : Type} (broken : List Nat) (m : ConnectionManager)
    (message : μ) (exclude_user : Option String) :
    ConnectionManager × List (Delivery μ) :=
  let pass := broadcastPass broken message exclude_user m.active_connections
  (pass.2.foldl disconnect m, pass.1)

/-- The accumulation loop of `send_to_room` (lines 102-108): one pass over the
room's member set, delivering to each member that is not excluded and has a
connection entry; writes that raise add the member to a disconnect list. -/
def roomPass {μ : Type} (broken : List Nat) (m : ConnectionManager) (message : μ)
    (exclude_user : Option String) (members : List String) :
    List (Delivery μ) × List String :=
  members.foldl
    (fun acc u =>
      if some u ≠ exclude_user then
        match dictGet m.active_connections u with
        | some websocket =>
          if websocket ∈ broken then (acc.1, acc.2 ++ [u])
          else (acc.1 ++ [(u, websocket, message)], acc.2)
        | none => acc
      else acc)
    ([], [])

/-- `ConnectionManager.send_to_room` (lines 95-112): no-op when the room does
not exist; otherwise deliver to each non-excluded connected member, then
disconnect every member whose write raised. -/
def send_to_room {μ : Type} (broken : List Nat) (m : ConnectionManager)
    (message : μ) (room_id : String) (exclude_user : Option String) :
    ConnectionManager × List (Delivery μ) :=
  match dictGet m.rooms room_id with
  | none => (m, [])
  | some members =>
    let pass := roomPass broken m message exclude_user members
    (pass.2.foldl disconnect m, pass.1)

/-- Well-formedness every state built from Python dicts satisfies: the key
list of each of the three maps is duplicate-free. -/
def WF (m : ConnectionManager) : Prop :=
  (keys m.active_connections).Nodup ∧ (keys m.rooms).Nodup ∧
    (keys m.user_rooms).Nodup

instance : DecidablePred WF := fun m => by
  unfold WF; infer_instance

/-- `u ∈ rooms[r]` as a Boolean (false when the room is absent). -/
def userInRoom (m : ConnectionManager) (u r : String) : Bool :=
  match dictGet m.rooms r with
  | some members => u ∈ members
  | none => false

/-- `r ∈ user_rooms[u]` as a Boolean (false when the user is absent). -/
def roomInUser (m : ConnectionManager) (u r : String) : Bool :=
  match dictGet m.user_rooms u with
  | some rs => r ∈ rs
  | none => false

/-- The bidirectional membership invariant (spec §3) plus eager deletion of
empty rooms: every member-set entry is mirrored in `user_rooms`, every
room-set entry is mirrored in `rooms`, and no room has an empty member set. -/
def MemInv (m : ConnectionManager) : Prop :=
  (∀ p ∈ m.rooms, ∀ u ∈ p.2, roomInUser m u p.1 = true) ∧
  (∀ p ∈ m.user_rooms, ∀ r ∈ p.2, userInRoom m p.1 r = true) ∧
  (∀ p ∈ m.rooms, p.2 ≠ ([] : List String))

instance : DecidablePred MemInv := fun m => by
  unfold MemInv; infer_instance

/-- The `data` object of an inbound envelope: the fields that
`ConnectionManager.handle_message` reads with `data.get(...)`, each absent
when the key is missing. -/
structure MsgData where
  room_id : Option String := none
  target_user_id : Option String := none
  message : Option String := none
  conversation_id : Option String := none
  is_typing : Option Bool := none
  other_user_id : Option String := none
  signal_type : Option String := none
  signal_data : Option String := none
deriving DecidableEq, Repr

/-- An inbound envelope `{type, data}` after decoding: `message.get("type")`
and `message.get("data", {})`. -/
structure InMsg where
  type : Option String := none
  data : MsgData := {}
deriving DecidableEq, Repr

/-- Python truthiness of an optional string (`if room_id:`): `None` and the
empty string are falsy. -/
def truthy (o : Option String) : Bool :=
  match o with
  | none => false
  | some s => s != ""

/-- Outbound envelopes built by `ConnectionManager.handle_message`, with the
server timestamp abstracted to a `Nat`. -/
inductive OutMsg where
  | pong (timestamp : Nat)
  | user_joined (user_id room_id : String) (timestamp : Nat)
  | user_left (user_id room_id : String) (timestamp : Nat)
  | room_message (user_id room_id : String) (message : Option String) (timestamp : Nat)
  | private_message (from_user_id : String) (message : Option String) (timestamp : Nat)
  | typing (user_id : String) (conversation_id : Option String) (is_typing : Bool) (timestamp : Nat)
  | call_signal (from_user_id signal_type signal_data : String) (timestamp : Nat)
  | error (message : String) (timestamp : Nat)
deriving DecidableEq, Repr

/-- The Redis typing-indicator calls made by the `typing` branch of
`handle_message` (`set_typing` / `remove_typing`). -/
inductive TypingOp where
  | set (conversation_id : Option String) (user_id : String)
  | remove (conversation_id : Option String) (user_id : String)
deriving DecidableEq, Repr

/-- Rendering of `f"Unknown message type: {message_type}"` where
`message_type` is `message.get("type")` (Python prints `None` for a missing
key). -/
def unknownTypeText (t : Option String) : String :=
  "Unknown message type: " ++ (match t with | none => "None" | some s => s)

/-- `ConnectionManager.handle_message` (lines 130-250): dispatch on the
envelope's `type` tag.  Returns the new registry state, the channel writes
performed, and the Redis typing-indicator calls made.  Recognized tags:
`ping`, `join_room`, `leave_room`, `room_message`, `private_message`,
`typing`, `call_signal`; anything else is answered with an `error` envelope
sent to the sender. -/
def handle_message (broken : List Nat) (m : ConnectionManager)
    (user_id : String) (message : InMsg) (now : Nat) :
    ConnectionManager × List (Delivery OutMsg) × List TypingOp :=
  let mtype := message.type
  let data := message.data
  if mtype = some "ping" then
    let r := send_personal_message broken m (OutMsg.pong now) user_id
    (r.1, r.2.1, [])
  else if mtype = some "join_room" then
    if truthy data.room_id then
      let rid := data.room_id.getD ""
      let m1 := join_room m user_id rid
      let r := send_to_room broken m1 (OutMsg.user_joined user_id rid now) rid (some user_id)
      (r.1, r.2, [])
    else (m, [], [])
  else if mtype = some "leave_room" then
    if truthy data.room_id then
      let rid := data.room_id.getD ""
      let m1 := leave_room m user_id rid
      let r := send_to_room broken m1 (OutMsg.user_left user_id rid now) rid none
      (r.1, r.2, [])
    else (m, [], [])
  else if mtype = some "room_message" then
    if truthy data.room_id ∧ (data.room_id.getD "") ∈ (dictGet m.user_rooms user_id).getD [] then
      let rid := data.room_id.getD ""
      let r := send_to_room broken m (OutMsg.room_message user_id rid data.message now) rid (some user_id)
      (r.1, r.2, [])
    else (m, [], [])
  else if mtype = some "private_message" then
    if truthy data.target_user_id then
      let r := send_personal_message broken m
        (OutMsg.private_message user_id data.message now) (data.target_user_id.getD "")
      (r.1, r.2.1, [])
    else (m, [], [])
  else if mtype = some "typing" then
    let conversation_id := data.conversation_id
    let is_typing := data.is_typing.getD false
    let tops := if is_typing then [TypingOp.set conversation_id user_id]
      else [TypingOp.remove conversation_id user_id]
    if truthy data.other_user_id then
      let r := send_personal_message broken m
        (OutMsg.typing user_id conversation_id is_typing now) (data.other_user_id.getD "")
      (r.1, r.2.1, tops)
    else (m, [], tops)
  else if mtype = some "call_signal" then
    if truthy data.target_user_id ∧ truthy data.signal_type ∧ truthy data.signal_data then
      let r := send_personal_message broken m
        (OutMsg.call_signal user_id (data.signal_type.getD "") (data.signal_data.getD "") now)
        (data.target_user_id.getD "")
      (r.1, r.2.1, [])
    else (m, [], [])
  else
    let r := send_personal_message broken m
      (OutMsg.error (unknownTypeText mtype) now) user_id
    (r.1, r.2.1, [])

/-- The tags `handle_message` recognizes (every other tag reaches the `else`
branch). -/
def recognizedTypes : List (Option String) :=
  [some "ping", some "join_room", some "leave_room", some "room_message",
   some "private_message", some "typing", some "call_signal"]

/-- `RedisManager.STATUS_EXPIRE` (redis_manager.py line 27). -/
def STATUS_EXPIRE : Nat := 300

/-- A per-user status record written with `setex`: the JSON value
`{status, last_seen}` plus the TTL it was stored with. -/
structure StatusRecord where
  status : String
  last_seen : Nat
  expire : Nat
deriving DecidableEq, Repr

/-- The presence portion of the Redis cache: the `online_users` set and the
`user_status:{user_id}` records. -/
structure RedisState where
  online_users : List String
  user_status : Dict StatusRecord
deriving DecidableEq, Repr

/-- `RedisManager.set_user_online` (lines 65-93), on the connected-client
path: `sadd` the user to the online set, then `setex` the status record with
TTL `STATUS_EXPIRE`.  `status` defaults to `"online"` at call sites. -/
def set_user_online (r : RedisState) (user_id : String) (status : String)
    (now : Nat) : RedisState :=
  { online_users := setAdd r.online_users user_id,
    user_status := dictSet r.user_status user_id ⟨status, now, STATUS_EXPIRE⟩ }

/-- `RedisManager.set_user_offline` (lines 95-123), on the connected-client
path: `srem` the user from the online set, then `setex` an `"offline"` status
record with TTL `STATUS_EXPIRE`. -/
def set_user_offline (r : RedisState) (user_id : String) (now : Nat) :
    RedisState :=
  { online_users := r.online_users.filter (fun y => y ≠ user_id),
    user_status := dictSet r.user_status user_id ⟨"offline", now, STATUS_EXPIRE⟩ }

/-- `RedisManager.get_online_users` (lines 146-161): `smembers` of the online
set. -/
def get_online_users (r : RedisState) : List String := r.online_users

/-- A registry operation of the Connection Registry contract (spec §4.1):
`register` is `connect`, `unregister` is `disconnect`. -/
inductive RegOp where
  | register (websocket : Nat) (user_id : String)
  | unregister (user_id : String)
deriving DecidableEq, Repr

/-- Apply one registry operation. -/
def applyOp (m : ConnectionManager) : RegOp → ConnectionManager
  | RegOp.register websocket user_id => connect m websocket user_id
  | RegOp.unregister user_id => disconnect m user_id

/-- Apply a sequence of registry operations from left to right. -/
def applyOps (m : ConnectionManager) (ops : List RegOp) : ConnectionManager :=
  ops.foldl applyOp m

/-! ### Association-list lemmas -/

theorem dictGet_dictSet_self {α : Type} (d : Dict α) (k : String) (v : α) :
    dictGet (dictSet d k v) k = some v := by
  induction d with
  | nil => simp [dictGet, dictSet]
  | cons p rest ih =>
    obtain ⟨k', v'⟩ := p
    by_cases h : k' = k <;> simp [dictGet, dictSet, h, ih]

theorem dictGet_dictSet_ne {α : Type} (d : Dict α) {k k' : String} (v : α)
    (h : k' ≠ k) : dictGet (dictSet d k v) k' = dictGet d k' := by
  have hk : k ≠ k' := Ne.symm h
  induction d with
  | nil => simp [dictGet, dictSet, hk]
  | cons p rest ih =>
    obtain ⟨a, b⟩ := p
    by_cases ha : a = k
    · subst ha
      simp [dictGet, dictSet, hk]
    · simp [dictGet, dictSet, ha, ih]

theorem dictGet_dictDel_ne {α : Type} (d : Dict α) {k k' : String}
    (h : k' ≠ k) : dictGet (dictDel d k) k' = dictGet d k' := by
  have hk : k ≠ k' := Ne.symm h
  induction d with
  | nil => simp [dictDel]
  | cons p rest ih =>
    obtain ⟨a, b⟩ := p
    by_cases ha : a = k
    · subst ha
      simp [dictGet, dictDel, hk]
    · simp [dictGet, dictDel, ha, ih]

theorem mem_keys_of_dictGet {α : Type} {d : Dict α} {k : String} {v : α}
    (h : dictGet d k = some v) : k ∈ keys d := by
  induction d with
  | nil => simp [dictGet] at h
  | cons p rest ih =>
    obtain ⟨a, b⟩ := p
    by_cases ha : a = k
    · simp [keys, ha]
    · simp only [dictGet, if_neg ha] at h
      simp only [keys, List.map_cons, List.mem_cons]
      exact Or.inr (ih h)

theorem dictGet_eq_none_of_not_mem_keys {α : Type} {d : Dict α} {k : String}
    (h : k ∉ keys d) : dictGet d k = none := by
  cases hg : dictGet d k with
  | none => rfl
  | some v => exact absurd (mem_keys_of_dictGet hg) h

theorem dictGet_dictDel_self {α : Type} {d : Dict α} (k : String)
    (h : (keys d).Nodup) : dictGet (dictDel d k) k = none := by
  induction d with
  | nil => simp [dictDel, dictGet]
  | cons p rest ih =>
    obtain ⟨a, b⟩ := p
    simp only [keys, List.map_cons, List.nodup_cons] at h
    by_cases ha : a = k
    · subst ha
      simp only [dictDel, if_pos rfl]
      exact dictGet_eq_none_of_not_mem_keys h.1
    · simp only [dictDel, if_neg ha, dictGet, if_neg ha]
      exact ih h.2

theorem dictGet_mem {α : Type} {d : Dict α} {k : String} {v : α}
    (h : dictGet d k = some v) : (k, v) ∈ d := by
  induction d with
  | nil => simp [dictGet] at h
  | cons p rest ih =>
    obtain ⟨a, b⟩ := p
    by_cases ha : a = k
    · subst ha
      simp [dictGet] at h
      subst h
      exact List.mem_cons_self _ _
    · simp only [dictGet, if_neg ha] at h
      exact List.mem_cons_of_mem _ (ih h)

theorem dictGet_of_mem {α : Type} {d : Dict α} {k : String} {v : α}
    (hnd : (keys d).Nodup) (h : (k, v) ∈ d) : dictGet d k = some v := by
  induction d with
  | nil => simp at h
  | cons p rest ih =>
    obtain ⟨a, b⟩ := p
    simp only [keys, List.map_cons, List.nodup_cons] at hnd
    rcases List.mem_cons.mp h with h | h
    · cases h
      simp [dictGet]
    · by_cases ha : a = k
      · subst ha
        exact absurd (List.mem_map_of_mem Prod.fst h) hnd.1
      · simp only [dictGet, if_neg ha]
        exact ih hnd.2 h

theorem mem_dictSet {α : Type} {d : Dict α} {k : String} {v : α}
    {p : String × α} (h : p ∈ dictSet d k v) : p = (k, v) ∨ p ∈ d := by
  induction d with
  | nil =>
    simp only [dictSet, List.mem_singleton] at h
    exact Or.inl h
  | cons q rest ih =>
    obtain ⟨a, b⟩ := q
    by_cases ha : a = k
    · simp only [dictSet, if_pos ha] at h
      rcases List.mem_cons.mp h with h | h
      · exact Or.inl h
      · exact Or.inr (List.mem_cons_of_mem _ h)
    · simp only [dictSet, if_neg ha] at h
      rcases List.mem_cons.mp h with h | h
      · exact Or.inr (h ▸ List.mem_cons_self _ _)
      · rcases ih h with h | h
        · exact Or.inl h
        · exact Or.inr (List.mem_cons_of_mem _ h)

theorem mem_keys_dictSet {α : Type} {d : Dict α} {k k' : String} {v : α}
    (h : k' ∈ keys (dictSet d k v)) : k' ∈ keys d ∨ k' = k := by
  simp only [keys, List.mem_map] at h
  obtain ⟨p, hp, hk⟩ := h
  rcases mem_dictSet hp with h | h
  · exact Or.inr (by rw [← hk, h])
  · refine Or.inl ?_
    simp only [keys, List.mem_map]
    exact ⟨p, h, hk⟩

theorem nodup_keys_dictSet {α : Type} {d : Dict α} (k : String) (v : α)
    (h : (keys d).Nodup) : (keys (dictSet d k v)).Nodup := by
  induction d with
  | nil => simp [dictSet, keys]
  | cons p rest ih =>
    obtain ⟨a, b⟩ := p
    simp only [keys, List.map_cons, List.nodup_cons] at h
    by_cases ha : a = k
    · subst ha
      simpa [dictSet, keys, List.nodup_cons] using h
    · simp only [dictSet, if_neg ha, keys, List.map_cons, List.nodup_cons]
      refine ⟨fun hmem => ?_, ih h.2⟩
      rcases mem_keys_dictSet hmem with hm | hm
      · exact h.1 hm
      · exact ha hm

theorem dictDel_sublist {α : Type} (d : Dict α) (k : String) :
    List.Sublist (dictDel d k) d := by
  induction d with
  | nil => simp [dictDel]
  | cons p rest ih =>
    obtain ⟨a, b⟩ := p
    by_cases ha : a = k
    · simp [dictDel, ha]
    · simpa [dictDel, ha] using ih.cons₂ (a, b)

theorem nodup_keys_dictDel {α : Type} {d : Dict α} (k : String)
    (h : (keys d).Nodup) : (keys (dictDel d k)).Nodup :=
  List.Nodup.sublist ((dictDel_sublist d k).map Prod.fst) h

/-! ### Set-model lemmas -/

theorem mem_setAdd_iff {s : List String} {x y : String} :
    y ∈ setAdd s x ↔ y ∈ s ∨ y = x := by
  unfold setAdd
  by_cases h : x ∈ s
  · simp only [if_pos h]
    constructor
    · exact Or.inl
    · rintro (hy | rfl)
      · exact hy
      · exact h
  · simp [if_neg h]

theorem mem_setAdd_self (s : List String) (x : String) : x ∈ setAdd s x :=
  mem_setAdd_iff.mpr (Or.inr rfl)

theorem setAdd_ne_nil (s : List String) (x : String) : setAdd s x ≠ [] :=
  fun h => by simpa [h] using mem_setAdd_self s x

theorem mem_setDiscard_iff {s : List String} {x y : String} :
    y ∈ setDiscard s x ↔ y ∈ s ∧ y ≠ x := by
  simp [setDiscard]

theorem setDiscard_idem (s : List String) (x : String) :
    setDiscard (setDiscard s x) x = setDiscard s x := by
  simp [setDiscard, List.filter_filter]

/-- The effect of one `dropUserFromRoom u` pass on the value stored at the
room it targets. -/
def dropKeyResult (u : String) (o : Option (List String)) : Option (List String) :=
  match o with
  | none => none
  | some ms =>
    let ms' := setDiscard ms u
    if ms' = [] then none else some ms'

theorem dropKeyResult_idem (u : String) (o : Option (List String)) :
    dropKeyResult u (dropKeyResult u o) = dropKeyResult u o := by
  cases o with
  | none => rfl
  | some ms =>
    simp only [dropKeyResult]
    by_cases h : setDiscard ms u = []
    · simp [h, dropKeyResult]
    · simp [h, dropKeyResult, setDiscard_idem, h]

theorem not_mem_dropKeyResult {u : String} {o : Option (List String)}
    {ms : List String} (h : dropKeyResult u o = some ms) : u ∉ ms := by
  cases o with
  | none => simp [dropKeyResult] at h
  | some ms0 =>
    simp only [dropKeyResult] at h
    by_cases he : setDiscard ms0 u = []
    · simp [he] at h
    · rw [if_neg he] at h
      cases h
      intro hu
      exact ((mem_setDiscard_iff.mp hu).2) rfl

theorem dropKeyResult_sub {u : String} {o : Option (List String)}
    {ms : List String} (h : dropKeyResult u o = some ms) :
    ∃ ms0, o = some ms0 ∧ ∀ x ∈ ms, x ∈ ms0 := by
  cases o with
  | none => simp [dropKeyResult] at h
  | some ms0 =>
    refine ⟨ms0, rfl, ?_⟩
    simp only [dropKeyResult] at h
    by_cases he : setDiscard ms0 u = []
    · simp [he] at h
    · rw [if_neg he] at h
      cases h
      intro x hx
      exact (mem_setDiscard_iff.mp hx).1

theorem dropKeyResult_ne_nil {u : String} {o : Option (List String)}
    {ms : List String} (h : dropKeyResult u o = some ms) : ms ≠ [] := by
  cases o with
  | none => simp [dropKeyResult] at h
  | some ms0 =>
    simp only [dropKeyResult] at h
    by_cases he : setDiscard ms0 u = []
    · simp [he] at h
    · rw [if_neg he] at h
      cases h
      exact he

/-! ### Per-key characterization of the registry operations -/

theorem nodup_keys_dropUserFromRoom {u : String} {rs : Dict (List String)}
    (r : String) (h : (keys rs).Nodup) :
    (keys (dropUserFromRoom u rs r)).Nodup := by
  unfold dropUserFromRoom
  cases dictGet rs r with
  | none => exact h
  | some members =>
    by_cases he : setDiscard members u = []
    · simpa [he] using nodup_keys_dictDel r h
    · simpa [he] using nodup_keys_dictSet r (setDiscard members u) h

theorem dropUserFromRoom_get {u : String} {rs : Dict (List String)}
    {r : String} (hnd : (keys rs).Nodup) (r' : String) :
    dictGet (dropUserFromRoom u rs r) r' =
      if r' = r then dropKeyResult u (dictGet rs r) else dictGet rs r' := by
  unfold dropUserFromRoom
  cases hg : dictGet rs r with
  | none =>
    by_cases hr : r' = r
    · subst hr
      simp [hg, dropKeyResult]
    · simp [hr]
  | some members =>
    by_cases he : setDiscard members u = []
    · simp only [he, if_pos rfl]
      by_cases hr : r' = r
      · subst hr
        simp [dictGet_dictDel_self r' hnd, dropKeyResult, hg, he]
      · simp [dictGet_dictDel_ne _ hr, hr]
    · simp only [he, if_neg he]
      by_cases hr : r' = r
      · subst hr
        simp [dictGet_dictSet_self, dropKeyResult, hg, he]
      · simp [dictGet_dictSet_ne _ _ hr, hr]

theorem foldl_drop_nodup {u : String} {rs : Dict (List String)}
    (rms : List String) (h : (keys rs).Nodup) :
    (keys (rms.foldl (dropUserFromRoom u) rs)).Nodup := by
  induction rms generalizing rs with
  | nil => exact h
  | cons a rms ih => exact ih (nodup_keys_dropUserFromRoom a h)

theorem foldl_drop_get {u : String} {rs : Dict (List String)}
    (rms : List String) (hnd : (keys rs).Nodup) (r : String) :
    dictGet (rms.foldl (dropUserFromRoom u) rs) r =
      if r ∈ rms then dropKeyResult u (dictGet rs r) else dictGet rs r := by
  induction rms generalizing rs with
  | nil => simp
  | cons a rms ih =>
    have hnd' := @nodup_keys_dropUserFromRoom u rs a hnd
    have hstep := @dropUserFromRoom_get u rs a hnd
    simp only [List.foldl_cons]
    rw [ih hnd']
    by_cases hmem : r ∈ rms
    · simp only [if_pos hmem, hstep r, List.mem_cons, if_pos (Or.inr hmem)]
      by_cases hra : r = a
      · rw [if_pos hra, dropKeyResult_idem, hra]
      · rw [if_neg hra]
    · simp only [if_neg hmem, hstep r]
      by_cases hra : r = a
      · simp [hra]
      · simp [hra, hmem]


theorem connect_rooms (m : ConnectionManager) (ws : Nat) (u : String) :
    (connect m ws u).rooms = m.rooms := by
  simp only [connect]
  split <;> rfl

theorem connect_active_get (m : ConnectionManager) (ws : Nat) (u u' : String) :
    dictGet (connect m ws u).active_connections u' =
      if u' = u then some ws else dictGet m.active_connections u' := by
  simp only [connect]
  split <;> by_cases h : u' = u <;>
    simp_all [dictGet_dictSet_self, dictGet_dictSet_ne]

theorem connect_user_rooms_get (m : ConnectionManager) (ws : Nat) (u u' : String) :
    dictGet (connect m ws u).user_rooms u' =
      if u' = u then some ((dictGet m.user_rooms u).getD []) else dictGet m.user_rooms u' := by
  simp only [connect]
  split <;> by_cases h : u' = u <;>
    simp_all [dictGet_dictSet_self, dictGet_dictSet_ne]

theorem join_rooms_get (m : ConnectionManager) (u r r' : String) :
    dictGet (join_room m u r).rooms r' =
      if r' = r then some (setAdd ((dictGet m.rooms r).getD []) u)
      else dictGet m.rooms r' := by
  simp only [join_room]
  by_cases h : r' = r <;> simp_all [dictGet_dictSet_self, dictGet_dictSet_ne]

theorem join_user_rooms_get (m : ConnectionManager) (u r u' : String) :
    dictGet (join_room m u r).user_rooms u' =
      if u' = u then some (setAdd ((dictGet m.user_rooms u).getD []) r)
      else dictGet m.user_rooms u' := by
  simp only [join_room]
  by_cases h : u' = u <;> simp_all [dictGet_dictSet_self, dictGet_dictSet_ne]

theorem leave_rooms_eq (m : ConnectionManager) (u r : String) :
    (leave_room m u r).rooms = dropUserFromRoom u m.rooms r := by
  simp only [leave_room, dropUserFromRoom]
  split <;> (try split) <;> (try split) <;> rfl

theorem leave_rooms_get (m : ConnectionManager) {u r : String}
    (hnd : (keys m.rooms).Nodup) (r' : String) :
    dictGet (leave_room m u r).rooms r' =
      if r' = r then dropKeyResult u (dictGet m.rooms r) else dictGet m.rooms r' := by
  rw [leave_rooms_eq]
  exact dropUserFromRoom_get hnd r'

theorem leave_user_rooms_get (m : ConnectionManager) (u r u' : String) :
    dictGet (leave_room m u r).user_rooms u' =
      if u' = u then Option.map (fun rs => setDiscard rs r) (dictGet m.user_rooms u)
      else dictGet m.user_rooms u' := by
  simp only [leave_room]
  split <;> (try split) <;> split <;> by_cases h : u' = u <;>
    simp_all [dictGet_dictSet_self, dictGet_dictSet_ne]


theorem disconnect_active_get (m : ConnectionManager) {u : String}
    (hnd : (keys m.active_connections).Nodup) (u' : String) :
    dictGet (disconnect m u).active_connections u' =
      if u' = u then none else dictGet m.active_connections u' := by
  cases hg : dictGet m.active_connections u with
  | none =>
    simp only [disconnect, hg]
    split <;> by_cases h : u' = u <;> simp_all
  | some c =>
    simp only [disconnect, hg]
    split <;> by_cases h : u' = u <;>
      simp_all [dictGet_dictDel_self _ hnd, dictGet_dictDel_ne]

theorem disconnect_user_rooms_get (m : ConnectionManager) {u : String}
    (hnd : (keys m.user_rooms).Nodup) (u' : String) :
    dictGet (disconnect m u).user_rooms u' =
      if u' = u then none else dictGet m.user_rooms u' := by
  cases hg : dictGet m.active_connections u with
  | none =>
    simp only [disconnect, hg]
    split <;> by_cases h : u' = u <;>
      simp_all [dictGet_dictDel_self _ hnd, dictGet_dictDel_ne]
  | some c =>
    simp only [disconnect, hg]
    split <;> by_cases h : u' = u <;>
      simp_all [dictGet_dictDel_self _ hnd, dictGet_dictDel_ne]

theorem disconnect_rooms_get (m : ConnectionManager) {u : String}
    (hnd : (keys m.rooms).Nodup) (r : String) :
    dictGet (disconnect m u).rooms r =
      match dictGet m.user_rooms u with
      | none => dictGet m.rooms r
      | some rms =>
        if r ∈ rms then dropKeyResult u (dictGet m.rooms r) else dictGet m.rooms r := by
  cases hg : dictGet m.active_connections u with
  | none =>
    simp only [disconnect, hg]
    split <;> simp_all [foldl_drop_get _ hnd]
  | some c =>
    simp only [disconnect, hg]
    split <;> simp_all [foldl_drop_get _ hnd]

theorem wf_connect {m : ConnectionManager} (hwf : WF m) (ws : Nat) (u : String) :
    WF (connect m ws u) := by
  obtain ⟨h1, h2, h3⟩ := hwf
  simp only [connect, WF]
  split <;>
    exact ⟨nodup_keys_dictSet u ws h1, h2,
      by first | exact h3 | exact nodup_keys_dictSet u [] h3⟩

theorem wf_join {m : ConnectionManager} (hwf : WF m) (u r : String) :
    WF (join_room m u r) := by
  obtain ⟨h1, h2, h3⟩ := hwf
  exact ⟨h1, nodup_keys_dictSet _ _ h2, nodup_keys_dictSet _ _ h3⟩

theorem wf_leave {m : ConnectionManager} (hwf : WF m) (u r : String) :
    WF (leave_room m u r) := by
  obtain ⟨h1, h2, h3⟩ := hwf
  simp only [leave_room, WF]
  split <;> (try split) <;> (try split) <;>
    exact ⟨h1,
      by first | exact h2 | exact nodup_keys_dictDel _ h2 | exact nodup_keys_dictSet _ _ h2,
      by first | exact h3 | exact nodup_keys_dictSet _ _ h3⟩

theorem wf_disconnect {m : ConnectionManager} (hwf : WF m) (u : String) :
    WF (disconnect m u) := by
  obtain ⟨h1, h2, h3⟩ := hwf
  simp only [disconnect, WF]
  split <;> (try split) <;>
    exact ⟨by first | exact h1 | exact nodup_keys_dictDel _ h1,
      by first | exact h2 | exact foldl_drop_nodup _ h2,
      by first | exact h3 | exact nodup_keys_dictDel _ h3⟩

/-! ### Membership characterizations and the bidirectional invariant -/

theorem userInRoom_iff {m : ConnectionManager} {u r : String} :
    userInRoom m u r = true ↔ ∃ ms, dictGet m.rooms r = some ms ∧ u ∈ ms := by
  unfold userInRoom
  cases dictGet m.rooms r <;> simp

theorem roomInUser_iff {m : ConnectionManager} {u r : String} :
    roomInUser m u r = true ↔ ∃ rs, dictGet m.user_rooms u = some rs ∧ r ∈ rs := by
  unfold roomInUser
  cases dictGet m.user_rooms u <;> simp

theorem inv_room_to_user {m : ConnectionManager} (hinv : MemInv m) {u r : String}
    {ms : List String} (hg : dictGet m.rooms r = some ms) (hu : u ∈ ms) :
    roomInUser m u r = true :=
  hinv.1 (r, ms) (dictGet_mem hg) u hu

theorem inv_user_to_room {m : ConnectionManager} (hinv : MemInv m) {u r : String}
    {rs : List String} (hg : dictGet m.user_rooms u = some rs) (hr : r ∈ rs) :
    userInRoom m u r = true :=
  hinv.2.1 (u, rs) (dictGet_mem hg) r hr

theorem inv_no_empty {m : ConnectionManager} (hinv : MemInv m) {r : String}
    {ms : List String} (hg : dictGet m.rooms r = some ms) : ms ≠ [] :=
  hinv.2.2 (r, ms) (dictGet_mem hg)

theorem meminv_of_pointwise {m : ConnectionManager} (hwf : WF m)
    (h1 : ∀ u r ms, dictGet m.rooms r = some ms → u ∈ ms → roomInUser m u r = true)
    (h2 : ∀ u r rs, dictGet m.user_rooms u = some rs → r ∈ rs → userInRoom m u r = true)
    (h3 : ∀ r ms, dictGet m.rooms r = some ms → ms ≠ []) : MemInv m := by
  obtain ⟨_, hr, hu⟩ := hwf
  refine ⟨?_, ?_, ?_⟩
  · rintro ⟨r, ms⟩ hp u hum
    exact h1 u r ms (dictGet_of_mem hr hp) hum
  · rintro ⟨u, rs⟩ hp r hrm
    exact h2 u r rs (dictGet_of_mem hu hp) hrm
  · rintro ⟨r, ms⟩ hp
    exact h3 r ms (dictGet_of_mem hr hp)

theorem userInRoom_join_iff {m : ConnectionManager} {u r w r' : String} :
    userInRoom (join_room m u r) w r' = true ↔
      (r' = r ∧ (w = u ∨ userInRoom m w r = true)) ∨
      (r' ≠ r ∧ userInRoom m w r' = true) := by
  rw [userInRoom_iff]
  simp only [join_rooms_get]
  by_cases hr' : r' = r
  · subst hr'
    rw [userInRoom_iff]
    cases hg : dictGet m.rooms r' <;>
      simp [hg, mem_setAdd_iff, or_comm]
  · simp [userInRoom_iff, hr']

theorem roomInUser_join_iff {m : ConnectionManager} {u r w r' : String} :
    roomInUser (join_room m u r) w r' = true ↔
      (w = u ∧ (r' = r ∨ roomInUser m u r' = true)) ∨
      (w ≠ u ∧ roomInUser m w r' = true) := by
  rw [roomInUser_iff]
  simp only [join_user_rooms_get]
  by_cases hw : w = u
  · subst hw
    rw [roomInUser_iff]
    cases hg : dictGet m.user_rooms w <;>
      simp [hg, mem_setAdd_iff, or_comm]
  · simp [roomInUser_iff, hw]

theorem userInRoom_leave_iff {m : ConnectionManager} {u r w r' : String}
    (hnd : (keys m.rooms).Nodup) :
    userInRoom (leave_room m u r) w r' = true ↔
      (r' = r ∧ w ≠ u ∧ userInRoom m w r = true) ∨
      (r' ≠ r ∧ userInRoom m w r' = true) := by
  simp only [userInRoom_iff, leave_rooms_get m hnd]
  by_cases hr' : r' = r
  · subst hr'
    constructor
    · rintro ⟨ms, hms, hw⟩
      rw [if_pos rfl] at hms
      cases hgr : dictGet m.rooms r' with
      | none => rw [hgr] at hms; cases hms
      | some ms0 =>
        rw [hgr] at hms
        simp only [dropKeyResult] at hms
        by_cases he : setDiscard ms0 u = []
        · rw [if_pos he] at hms
          cases hms
        · rw [if_neg he] at hms
          injection hms with hms
          subst hms
          obtain ⟨hw0, hwu⟩ := mem_setDiscard_iff.mp hw
          exact Or.inl ⟨rfl, hwu, ms0, rfl, hw0⟩
    · rintro (⟨-, hwu, ms1, hms1, hw1⟩ | ⟨hne, -⟩)
      · refine ⟨setDiscard ms1 u, ?_, mem_setDiscard_iff.mpr ⟨hw1, hwu⟩⟩
        rw [if_pos rfl, hms1]
        simp only [dropKeyResult]
        rw [if_neg]
        intro he
        exact absurd (mem_setDiscard_iff.mpr ⟨hw1, hwu⟩) (by simp [he])
      · exact absurd rfl hne
  · simp [userInRoom_iff, hr']

theorem roomInUser_leave_iff {m : ConnectionManager} {u r w r' : String} :
    roomInUser (leave_room m u r) w r' = true ↔
      (w = u ∧ r' ≠ r ∧ roomInUser m u r' = true) ∨
      (w ≠ u ∧ roomInUser m w r' = true) := by
  rw [roomInUser_iff]
  simp only [leave_user_rooms_get]
  by_cases hw : w = u
  · subst hw
    rw [roomInUser_iff]
    cases hg : dictGet m.user_rooms w <;>
      simp [hg, mem_setDiscard_iff, and_comm]
  · simp [roomInUser_iff, hw]

theorem userInRoom_disconnect_iff {m : ConnectionManager} {u w r : String}
    (hnd : (keys m.rooms).Nodup) :
    userInRoom (disconnect m u) w r = true ↔
      userInRoom m w r = true ∧ (roomInUser m u r = true → w ≠ u) := by
  rw [userInRoom_iff]
  simp only [disconnect_rooms_get m hnd]
  cases hg : dictGet m.user_rooms u with
  | none =>
    rw [userInRoom_iff, roomInUser_iff]
    simp [hg]
  | some rms =>
    by_cases hr : r ∈ rms
    · simp only [if_pos hr]
      rw [userInRoom_iff, roomInUser_iff]
      cases hgr : dictGet m.rooms r with
      | none => simp [hgr, dropKeyResult]
      | some ms0 =>
        simp only [hgr, dropKeyResult]
        by_cases he : setDiscard ms0 u = []
        · rw [if_pos he]
          constructor
          · rintro ⟨ms, hms, -⟩
            cases hms
          · rintro ⟨⟨ms1, hms1, hw1⟩, hne⟩
            injection hms1 with hms1
            subst hms1
            have hwu : w ≠ u := hne ⟨rms, hg, hr⟩
            exact absurd (mem_setDiscard_iff.mpr ⟨hw1, hwu⟩) (by simp [he])
        · rw [if_neg he]
          constructor
          · rintro ⟨ms, hms, hw⟩
            injection hms with hms
            subst hms
            obtain ⟨hw0, hwu⟩ := mem_setDiscard_iff.mp hw
            exact ⟨⟨ms0, rfl, hw0⟩, fun _ => hwu⟩
          · rintro ⟨⟨ms1, hms1, hw1⟩, hne⟩
            injection hms1 with hms1
            subst hms1
            have hwu : w ≠ u := hne ⟨rms, hg, hr⟩
            exact ⟨_, rfl, mem_setDiscard_iff.mpr ⟨hw1, hwu⟩⟩
    · simp only [if_neg hr]
      rw [userInRoom_iff, roomInUser_iff]
      constructor
      · rintro ⟨ms, hms, hw⟩
        refine ⟨⟨ms, hms, hw⟩, ?_⟩
        rintro ⟨rs1, hrs1, hrr1⟩
        rw [hg] at hrs1
        injection hrs1 with hrs1
        subst hrs1
        exact absurd hrr1 hr
      · rintro ⟨⟨ms, hms, hw⟩, -⟩
        exact ⟨ms, hms, hw⟩

theorem roomInUser_disconnect_iff {m : ConnectionManager} {u w r : String}
    (hnd : (keys m.user_rooms).Nodup) :
    roomInUser (disconnect m u) w r = true ↔
      w ≠ u ∧ roomInUser m w r = true := by
  rw [roomInUser_iff]
  simp only [disconnect_user_rooms_get m hnd]
  by_cases hw : w = u
  · simp [hw]
  · rw [roomInUser_iff]
    simp [hw]

theorem userInRoom_of_get {m : ConnectionManager} {w r : String}
    {ms : List String} (hg : dictGet m.rooms r = some ms) (hw : w ∈ ms) :
    userInRoom m w r = true :=
  userInRoom_iff.mpr ⟨ms, hg, hw⟩

theorem roomInUser_of_get {m : ConnectionManager} {w r : String}
    {rs : List String} (hg : dictGet m.user_rooms w = some rs) (hr : r ∈ rs) :
    roomInUser m w r = true :=
  roomInUser_iff.mpr ⟨rs, hg, hr⟩

theorem inv_join {m : ConnectionManager} (hwf : WF m) (hinv : MemInv m)
    (u r : String) : MemInv (join_room m u r) := by
  have hfwd : ∀ w r', userInRoom m w r' = true → roomInUser m w r' = true := by
    intro w r' h
    obtain ⟨ms, hg, hw⟩ := userInRoom_iff.mp h
    exact inv_room_to_user hinv hg hw
  have hbwd : ∀ w r', roomInUser m w r' = true → userInRoom m w r' = true := by
    intro w r' h
    obtain ⟨rs, hg, hr⟩ := roomInUser_iff.mp h
    exact inv_user_to_room hinv hg hr
  apply meminv_of_pointwise (wf_join hwf u r)
  · intro w r' ms' hg hw
    have hu := userInRoom_join_iff.mp (userInRoom_of_get hg hw)
    rw [roomInUser_join_iff]
    rcases hu with ⟨rfl, hwu⟩ | ⟨hne, hu⟩
    · rcases hwu with rfl | hu
      · exact Or.inl ⟨rfl, Or.inl rfl⟩
      · by_cases hwu : w = u
        · subst hwu
          exact Or.inl ⟨rfl, Or.inl rfl⟩
        · exact Or.inr ⟨hwu, hfwd w r' hu⟩
    · by_cases hwu : w = u
      · subst hwu
        exact Or.inl ⟨rfl, Or.inr (hfwd w r' hu)⟩
      · exact Or.inr ⟨hwu, hfwd w r' hu⟩
  · intro w r' rs' hg hr
    have hu := roomInUser_join_iff.mp (roomInUser_of_get hg hr)
    rw [userInRoom_join_iff]
    rcases hu with ⟨rfl, hru⟩ | ⟨hne, hu⟩
    · rcases hru with rfl | hu
      · exact Or.inl ⟨rfl, Or.inl rfl⟩
      · by_cases hrr : r' = r
        · subst hrr
          exact Or.inl ⟨rfl, Or.inl rfl⟩
        · exact Or.inr ⟨hrr, hbwd w r' hu⟩
    · by_cases hrr : r' = r
      · subst hrr
        exact Or.inl ⟨rfl, Or.inr (hbwd w r' hu)⟩
      · exact Or.inr ⟨hrr, hbwd w r' hu⟩
  · intro r' ms' hg
    rw [join_rooms_get] at hg
    by_cases hrr : r' = r
    · rw [if_pos hrr] at hg
      injection hg with hg
      subst hg
      exact setAdd_ne_nil _ _
    · rw [if_neg hrr] at hg
      exact inv_no_empty hinv hg

theorem inv_leave {m : ConnectionManager} (hwf : WF m) (hinv : MemInv m)
    (u r : String) : MemInv (leave_room m u r) := by
  have hfwd : ∀ w r', userInRoom m w r' = true → roomInUser m w r' = true := by
    intro w r' h
    obtain ⟨ms, hg, hw⟩ := userInRoom_iff.mp h
    exact inv_room_to_user hinv hg hw
  have hbwd : ∀ w r', roomInUser m w r' = true → userInRoom m w r' = true := by
    intro w r' h
    obtain ⟨rs, hg, hr⟩ := roomInUser_iff.mp h
    exact inv_user_to_room hinv hg hr
  apply meminv_of_pointwise (wf_leave hwf u r)
  · intro w r' ms' hg hw
    have hu := (userInRoom_leave_iff hwf.2.1).mp (userInRoom_of_get hg hw)
    rw [roomInUser_leave_iff]
    rcases hu with ⟨rfl, hwu, hu⟩ | ⟨hne, hu⟩
    · exact Or.inr ⟨hwu, hfwd w r' hu⟩
    · by_cases hwu : w = u
      · subst hwu
        exact Or.inl ⟨rfl, hne, hfwd w r' hu⟩
      · exact Or.inr ⟨hwu, hfwd w r' hu⟩
  · intro w r' rs' hg hr
    have hu := roomInUser_leave_iff.mp (roomInUser_of_get hg hr)
    rw [userInRoom_leave_iff hwf.2.1]
    rcases hu with ⟨rfl, hrr, hu⟩ | ⟨hne, hu⟩
    · exact Or.inr ⟨hrr, hbwd w r' hu⟩
    · by_cases hrr : r' = r
      · subst hrr
        exact Or.inl ⟨rfl, hne, hbwd w r' hu⟩
      · exact Or.inr ⟨hrr, hbwd w r' hu⟩
  · intro r' ms' hg
    rw [leave_rooms_get m hwf.2.1] at hg
    by_cases hrr : r' = r
    · rw [if_pos hrr] at hg
      exact dropKeyResult_ne_nil hg
    · rw [if_neg hrr] at hg
      exact inv_no_empty hinv hg

theorem inv_disconnect {m : ConnectionManager} (hwf : WF m) (hinv : MemInv m)
    (u : String) : MemInv (disconnect m u) := by
  have hfwd : ∀ w r', userInRoom m w r' = true → roomInUser m w r' = true := by
    intro w r' h
    obtain ⟨ms, hg, hw⟩ := userInRoom_iff.mp h
    exact inv_room_to_user hinv hg hw
  have hbwd : ∀ w r', roomInUser m w r' = true → userInRoom m w r' = true := by
    intro w r' h
    obtain ⟨rs, hg, hr⟩ := roomInUser_iff.mp h
    exact inv_user_to_room hinv hg hr
  apply meminv_of_pointwise (wf_disconnect hwf u)
  · intro w r ms' hg hw
    have hu := (userInRoom_disconnect_iff hwf.2.1).mp (userInRoom_of_get hg hw)
    rw [roomInUser_disconnect_iff hwf.2.2]
    obtain ⟨hu, hcond⟩ := hu
    have hwu : w ≠ u := by
      intro hweq
      subst hweq
      exact hcond (hfwd w r hu) rfl
    exact ⟨hwu, hfwd w r hu⟩
  · intro w r rs' hg hr
    have hu := (roomInUser_disconnect_iff hwf.2.2).mp (roomInUser_of_get hg hr)
    rw [userInRoom_disconnect_iff hwf.2.1]
    obtain ⟨hwu, hu⟩ := hu
    exact ⟨hbwd w r hu, fun _ => hwu⟩
  · intro r ms' hg
    rw [disconnect_rooms_get m hwf.2.1] at hg
    cases hgu : dictGet m.user_rooms u with
    | none =>
      simp only [hgu] at hg
      exact inv_no_empty hinv hg
    | some rms =>
      simp only [hgu] at hg
      by_cases hr : r ∈ rms
      · rw [if_pos hr] at hg
        exact dropKeyResult_ne_nil hg
      · rw [if_neg hr] at hg
        exact inv_no_empty hinv hg

/-- A user is fully unregistered: not online, and in no room's member set. -/
def Gone (m : ConnectionManager) (w : String) : Prop :=
  is_user_online m w = false ∧ ∀ r, w ∉ get_room_users m r

theorem not_userInRoom_of_gone {m : ConnectionManager} {w : String}
    (h : Gone m w) (r : String) : userInRoom m w r = false := by
  cases hu : userInRoom m w r with
  | false => rfl
  | true =>
    obtain ⟨ms, hg, hw⟩ := userInRoom_iff.mp hu
    exact absurd (by simpa [get_room_users, hg] using hw) (h.2 r)

theorem gone_of_offline_not_in_rooms {m : ConnectionManager} {w : String}
    (h1 : is_user_online m w = false)
    (h2 : ∀ r, userInRoom m w r = false) : Gone m w := by
  refine ⟨h1, fun r hmem => ?_⟩
  unfold get_room_users at hmem
  cases hg : dictGet m.rooms r with
  | none => rw [hg] at hmem; cases hmem
  | some ms =>
    rw [hg] at hmem
    have := userInRoom_of_get hg hmem
    rw [h2 r] at this
    cases this

theorem gone_disconnect_self {m : ConnectionManager} (hwf : WF m)
    (hinv : MemInv m) (u : String) : Gone (disconnect m u) u := by
  refine gone_of_offline_not_in_rooms ?_ ?_
  · unfold is_user_online
    rw [disconnect_active_get m hwf.1, if_pos rfl]
    rfl
  · intro r
    cases hu : userInRoom (disconnect m u) u r with
    | false => rfl
    | true =>
      obtain ⟨hu', hcond⟩ := (userInRoom_disconnect_iff hwf.2.1).mp hu
      obtain ⟨ms, hg, hw⟩ := userInRoom_iff.mp hu'
      exact absurd rfl (hcond (inv_room_to_user hinv hg hw))

theorem gone_disconnect_stable {m : ConnectionManager} (hwf : WF m)
    {w : String} (h : Gone m w) (u : String) : Gone (disconnect m u) w := by
  refine gone_of_offline_not_in_rooms ?_ ?_
  · unfold is_user_online
    rw [disconnect_active_get m hwf.1]
    by_cases hwu : w = u
    · rw [if_pos hwu]; rfl
    · rw [if_neg hwu]
      exact h.1
  · intro r
    cases hu : userInRoom (disconnect m u) w r with
    | false => rfl
    | true =>
      obtain ⟨hu', -⟩ := (userInRoom_disconnect_iff hwf.2.1).mp hu
      rw [not_userInRoom_of_gone h r] at hu'
      cases hu'

theorem wf_inv_foldl_disconnect {m : ConnectionManager} (hwf : WF m)
    (hinv : MemInv m) (ws : List String) :
    WF (ws.foldl disconnect m) ∧ MemInv (ws.foldl disconnect m) := by
  induction ws generalizing m with
  | nil => exact ⟨hwf, hinv⟩
  | cons a ws ih =>
    exact ih (wf_disconnect hwf a) (inv_disconnect hwf hinv a)

theorem gone_foldl_disconnect_stable {m : ConnectionManager} (hwf : WF m)
    (hinv : MemInv m) {w : String} (h : Gone m w) (ws : List String) :
    Gone (ws.foldl disconnect m) w := by
  induction ws generalizing m with
  | nil => exact h
  | cons a ws ih =>
    exact ih (wf_disconnect hwf a) (inv_disconnect hwf hinv a)
      (gone_disconnect_stable hwf h a)

theorem gone_foldl_disconnect {m : ConnectionManager} (hwf : WF m)
    (hinv : MemInv m) {w : String} {ws : List String} (hw : w ∈ ws) :
    Gone (ws.foldl disconnect m) w := by
  induction ws generalizing m with
  | nil => cases hw
  | cons a ws ih =>
    rcases List.mem_cons.mp hw with rfl | hw
    · exact gone_foldl_disconnect_stable (wf_disconnect hwf w)
        (inv_disconnect hwf hinv w) (gone_disconnect_self hwf hinv w) ws
    · exact ih (wf_disconnect hwf a) (inv_disconnect hwf hinv a) hw

/-! ### Delivery-pass lemmas -/

theorem roomPass_go_mem {μ : Type} (broken : List Nat) (m : ConnectionManager)
    (message : μ) (exclude_user : Option String) :
    ∀ (members : List String) (acc : List (Delivery μ) × List String)
      {u : String} {c : Nat},
      ((u, c, message) ∈ acc.1 ∨ (u ∈ members ∧ some u ≠ exclude_user ∧
        dictGet m.active_connections u = some c ∧ c ∉ broken)) →
      (u, c, message) ∈ (members.foldl
        (fun acc u =>
          if some u ≠ exclude_user then
            match dictGet m.active_connections u with
            | some websocket =>
              if websocket ∈ broken then (acc.1, acc.2 ++ [u])
              else (acc.1 ++ [(u, websocket, message)], acc.2)
            | none => acc
          else acc) acc).1 := by
  intro members
  induction members with
  | nil =>
    intro acc u c h
    rcases h with h | ⟨h, -⟩
    · exact h
    · cases h
  | cons a members ih =>
    intro acc u c h
    simp only [List.foldl_cons]
    apply ih
    rcases h with h | ⟨hmem, hne, hc, hl⟩
    · left
      by_cases h1 : some a ≠ exclude_user
      · simp only [if_pos h1]
        cases hg : dictGet m.active_connections a with
        | none => exact h
        | some ws =>
          by_cases h2 : ws ∈ broken
          · simp only [if_pos h2]
            exact h
          · simp only [if_neg h2]
            exact List.mem_append_left _ h
      · simp only [if_neg h1]
        exact h
    · rcases List.mem_cons.mp hmem with rfl | hmem
      · left
        simp only [if_pos hne, hc, if_neg hl]
        exact List.mem_append_right _ (List.mem_singleton.mpr rfl)
      · exact Or.inr ⟨hmem, hne, hc, hl⟩

theorem roomPass_mem {μ : Type} {broken : List Nat} {m : ConnectionManager}
    {message : μ} {exclude_user : Option String} {members : List String}
    {u : String} {c : Nat} (hu : u ∈ members) (hne : some u ≠ exclude_user)
    (hc : dictGet m.active_connections u = some c) (hl : c ∉ broken) :
    (u, c, message) ∈ (roomPass broken m message exclude_user members).1 := by
  unfold roomPass
  exact roomPass_go_mem broken m message exclude_user members ([], [])
    (Or.inr ⟨hu, hne, hc, hl⟩)

theorem roomPass_go_failed {μ : Type} (broken : List Nat) (m : ConnectionManager)
    (message : μ) (exclude_user : Option String) :
    ∀ (members : List String) (acc : List (Delivery μ) × List String)
      {u : String} {c : Nat},
      (u ∈ acc.2 ∨ (u ∈ members ∧ some u ≠ exclude_user ∧
        dictGet m.active_connections u = some c ∧ c ∈ broken)) →
      u ∈ (members.foldl
        (fun acc u =>
          if some u ≠ exclude_user then
            match dictGet m.active_connections u with
            | some websocket =>
              if websocket ∈ broken then (acc.1, acc.2 ++ [u])
              else (acc.1 ++ [(u, websocket, message)], acc.2)
            | none => acc
          else acc) acc).2 := by
  intro members
  induction members with
  | nil =>
    intro acc u c h
    rcases h with h | ⟨h, -⟩
    · exact h
    · cases h
  | cons a members ih =>
    intro acc u c h
    simp only [List.foldl_cons]
    rcases h with h | ⟨hmem, hne, hc, hl⟩
    · refine ih _ (c := c) (Or.inl ?_)
      by_cases h1 : some a ≠ exclude_user
      · simp only [if_pos h1]
        cases hg : dictGet m.active_connections a with
        | none => exact h
        | some ws =>
          by_cases h2 : ws ∈ broken
          · simp only [if_pos h2]
            exact List.mem_append_left _ h
          · simp only [if_neg h2]
            exact h
      · simp only [if_neg h1]
        exact h
    · rcases List.mem_cons.mp hmem with rfl | hmem
      · refine ih _ (c := c) (Or.inl ?_)
        simp only [if_pos hne, hc, if_pos hl]
        exact List.mem_append_right _ (List.mem_singleton.mpr rfl)
      · exact ih _ (Or.inr ⟨hmem, hne, hc, hl⟩)

theorem roomPass_failed {μ : Type} {broken : List Nat} {m : ConnectionManager}
    {message : μ} {exclude_user : Option String} {members : List String}
    {u : String} {c : Nat} (hu : u ∈ members) (hne : some u ≠ exclude_user)
    (hc : dictGet m.active_connections u = some c) (hl : c ∈ broken) :
    u ∈ (roomPass broken m message exclude_user members).2 := by
  unfold roomPass
  exact roomPass_go_failed broken m message exclude_user members ([], [])
    (Or.inr ⟨hu, hne, hc, hl⟩)

theorem roomPass_go_sound {μ : Type} (broken : List Nat) (m : ConnectionManager)
    (message : μ) (exclude_user : Option String) :
    ∀ (members : List String) (acc : List (Delivery μ) × List String)
      {d : Delivery μ},
      d ∈ (members.foldl
        (fun acc u =>
          if some u ≠ exclude_user then
            match dictGet m.active_connections u with
            | some websocket =>
              if websocket ∈ broken then (acc.1, acc.2 ++ [u])
              else (acc.1 ++ [(u, websocket, message)], acc.2)
            | none => acc
          else acc) acc).1 →
      d ∈ acc.1 ∨ (d.1 ∈ members ∧ some d.1 ≠ exclude_user ∧
        dictGet m.active_connections d.1 = some d.2.1 ∧ d.2.1 ∉ broken ∧
        d.2.2 = message) := by
  intro members
  induction members with
  | nil =>
    intro acc d h
    exact Or.inl h
  | cons a members ih =>
    intro acc d h
    simp only [List.foldl_cons] at h
    rcases ih _ h with h | ⟨hmem, hne, hc, hl, hm⟩
    · by_cases h1 : some a ≠ exclude_user
      · simp only [if_pos h1] at h
        cases hg : dictGet m.active_connections a with
        | none =>
          simp only [hg] at h
          exact Or.inl h
        | some ws =>
          simp only [hg] at h
          by_cases h2 : ws ∈ broken
          · simp only [if_pos h2] at h
            exact Or.inl h
          · simp only [if_neg h2] at h
            rcases List.mem_append.mp h with h | h
            · exact Or.inl h
            · rcases List.mem_singleton.mp h with rfl
              exact Or.inr ⟨List.mem_cons_self _ _, h1, hg, h2, rfl⟩
      · simp only [if_neg h1] at h
        exact Or.inl h
    · exact Or.inr ⟨List.mem_cons_of_mem _ hmem, hne, hc, hl, hm⟩

theorem roomPass_sound {μ : Type} {broken : List Nat} {m : ConnectionManager}
    {message : μ} {exclude_user : Option String} {members : List String}
    {d : Delivery μ} (h : d ∈ (roomPass broken m message exclude_user members).1) :
    d.1 ∈ members ∧ some d.1 ≠ exclude_user ∧
      dictGet m.active_connections d.1 = some d.2.1 ∧ d.2.1 ∉ broken ∧
      d.2.2 = message := by
  unfold roomPass at h
  rcases roomPass_go_sound broken m message exclude_user members ([], []) h with h | h
  · cases h
  · exact h

theorem broadcastPass_go_mem {μ : Type} (broken : List Nat) (message : μ)
    (exclude_user : Option String) :
    ∀ (entries : List (String × Nat)) (acc : List (Delivery μ) × List String)
      {u : String} {c : Nat},
      ((u, c, message) ∈ acc.1 ∨ ((u, c) ∈ entries ∧ some u ≠ exclude_user ∧
        c ∉ broken)) →
      (u, c, message) ∈ (entries.foldl
        (fun acc p =>
          if some p.1 ≠ exclude_user then
            if p.2 ∈ broken then (acc.1, acc.2 ++ [p.1])
            else (acc.1 ++ [(p.1, p.2, message)], acc.2)
          else acc) acc).1 := by
  intro entries
  induction entries with
  | nil =>
    intro acc u c h
    rcases h with h | ⟨h, -⟩
    · exact h
    · cases h
  | cons p entries ih =>
    intro acc u c h
    simp only [List.foldl_cons]
    apply ih
    rcases h with h | ⟨hmem, hne, hl⟩
    · left
      by_cases h1 : some p.1 ≠ exclude_user
      · simp only [if_pos h1]
        by_cases h2 : p.2 ∈ broken
        · simp only [if_pos h2]
          exact h
        · simp only [if_neg h2]
          exact List.mem_append_left _ h
      · simp only [if_neg h1]
        exact h
    · rcases List.mem_cons.mp hmem with rfl | hmem
      · left
        simp only [if_pos hne, if_neg hl]
        exact List.mem_append_right _ (List.mem_singleton.mpr rfl)
      · exact Or.inr ⟨hmem, hne, hl⟩

theorem broadcastPass_mem {μ : Type} {broken : List Nat} {message : μ}
    {exclude_user : Option String} {entries : List (String × Nat)}
    {u : String} {c : Nat} (hu : (u, c) ∈ entries)
    (hne : some u ≠ exclude_user) (hl : c ∉ broken) :
    (u, c, message) ∈ (broadcastPass broken message exclude_user entries).1 := by
  unfold broadcastPass
  exact broadcastPass_go_mem broken message exclude_user entries ([], [])
    (Or.inr ⟨hu, hne, hl⟩)

theorem broadcastPass_go_failed {μ : Type} (broken : List Nat) (message : μ)
    (exclude_user : Option String) :
    ∀ (entries : List (String × Nat)) (acc : List (Delivery μ) × List String)
      {u : String} {c : Nat},
      (u ∈ acc.2 ∨ ((u, c) ∈ entries ∧ some u ≠ exclude_user ∧ c ∈ broken)) →
      u ∈ (entries.foldl
        (fun acc p =>
          if some p.1 ≠ exclude_user then
            if p.2 ∈ broken then (acc.1, acc.2 ++ [p.1])
            else (acc.1 ++ [(p.1, p.2, message)], acc.2)
          else acc) acc).2 := by
  intro entries
  induction entries with
  | nil =>
    intro acc u c h
    rcases h with h | ⟨h, -⟩
    · exact h
    · cases h
  | cons p entries ih =>
    intro acc u c h
    simp only [List.foldl_cons]
    rcases h with h | ⟨hmem, hne, hl⟩
    · refine ih _ (c := c) (Or.inl ?_)
      by_cases h1 : some p.1 ≠ exclude_user
      · simp only [if_pos h1]
        by_cases h2 : p.2 ∈ broken
        · simp only [if_pos h2]
          exact List.mem_append_left _ h
        · simp only [if_neg h2]
          exact h
      · simp only [if_neg h1]
        exact h
    · rcases List.mem_cons.mp hmem with rfl | hmem
      · refine ih _ (c := c) (Or.inl ?_)
        simp only [if_pos hne, if_pos hl]
        exact List.mem_append_right _ (List.mem_singleton.mpr rfl)
      · exact ih _ (Or.inr ⟨hmem, hne, hl⟩)

theorem broadcastPass_failed {μ : Type} {broken : List Nat} {message : μ}
    {exclude_user : Option String} {entries : List (String × Nat)}
    {u : String} {c : Nat} (hu : (u, c) ∈ entries)
    (hne : some u ≠ exclude_user) (hl : c ∈ broken) :
    u ∈ (broadcastPass broken message exclude_user entries).2 := by
  unfold broadcastPass
  exact broadcastPass_go_failed broken message exclude_user entries ([], [])
    (Or.inr ⟨hu, hne, hl⟩)

/-! ### Idempotence and operation sequences -/

theorem dictSet_dictSet {α : Type} (d : Dict α) (k : String) (v v' : α) :
    dictSet (dictSet d k v) k v' = dictSet d k v' := by
  induction d with
  | nil => simp [dictSet]
  | cons p rest ih =>
    obtain ⟨a, b⟩ := p
    by_cases ha : a = k <;> simp [dictSet, ha, ih]

theorem leave_room_idem {m : ConnectionManager} (hwf : WF m) (u r : String) :
    leave_room (leave_room m u r) u r = leave_room m u r := by
  obtain ⟨h1, h2, h3⟩ := hwf
  cases hgr : dictGet m.rooms r with
  | none =>
    cases hgu : dictGet m.user_rooms u with
    | none => simp [leave_room, hgr, hgu]
    | some rs =>
      simp [leave_room, hgr, hgu, dictGet_dictSet_self, setDiscard_idem,
        dictSet_dictSet]
  | some ms =>
    by_cases he : setDiscard ms u = []
    · have hdel : dictGet (dictDel m.rooms r) r = none := dictGet_dictDel_self r h2
      cases hgu : dictGet m.user_rooms u with
      | none => simp [leave_room, hgr, hgu, he, hdel]
      | some rs =>
        simp [leave_room, hgr, hgu, he, hdel, dictGet_dictSet_self,
          setDiscard_idem, dictSet_dictSet]
    · cases hgu : dictGet m.user_rooms u with
      | none =>
        simp [leave_room, hgr, hgu, he, dictGet_dictSet_self, setDiscard_idem,
          dictSet_dictSet]
      | some rs =>
        simp [leave_room, hgr, hgu, he, dictGet_dictSet_self, setDiscard_idem,
          dictSet_dictSet]

theorem disconnect_idem {m : ConnectionManager} (hwf : WF m) (u : String) :
    disconnect (disconnect m u) u = disconnect m u := by
  have ha : dictGet (disconnect m u).active_connections u = none := by
    rw [disconnect_active_get m hwf.1, if_pos rfl]
  have hu : dictGet (disconnect m u).user_rooms u = none := by
    rw [disconnect_user_rooms_get m hwf.2.2, if_pos rfl]
  conv_lhs => rw [disconnect]
  rw [ha]
  simp [hu]

theorem wf_initialManager : WF initialManager := by
  refine ⟨?_, ?_, ?_⟩ <;> simp [initialManager, keys]

theorem wf_applyOp {m : ConnectionManager} (hwf : WF m) (op : RegOp) :
    WF (applyOp m op) := by
  cases op with
  | register ws u => exact wf_connect hwf ws u
  | unregister u => exact wf_disconnect hwf u

theorem wf_applyOps {m : ConnectionManager} (hwf : WF m) (ops : List RegOp) :
    WF (applyOps m ops) := by
  unfold applyOps
  induction ops generalizing m with
  | nil => exact hwf
  | cons op ops ih => exact ih (wf_applyOp hwf op)

theorem send_to_room_eq_none {μ : Type} {m : ConnectionManager} {rid : String}
    (broken : List Nat) (msg : μ) (excl : Option String)
    (hg : dictGet m.rooms rid = none) :
    send_to_room broken m msg rid excl = (m, []) := by
  unfold send_to_room
  simp only [hg]

theorem send_to_room_eq_some {μ : Type} {m : ConnectionManager} {rid : String}
    {members : List String} (broken : List Nat) (msg : μ) (excl : Option String)
    (hg : dictGet m.rooms rid = some members) :
    send_to_room broken m msg rid excl =
      ((roomPass broken m msg excl members).2.foldl disconnect m,
       (roomPass broken m msg excl members).1) := by
  unfold send_to_room
  simp only [hg]

theorem broadcast_eq {μ : Type} (broken : List Nat) (m : ConnectionManager)
    (msg : μ) (excl : Option String) :
    broadcast broken m msg excl =
      ((broadcastPass broken msg excl m.active_connections).2.foldl disconnect m,
       (broadcastPass broken msg excl m.active_connections).1) := rfl

theorem get_room_users_eq_of_get {m : ConnectionManager} {rid : String}
    {members : List String} (hg : dictGet m.rooms rid = some members) :
    get_room_users m rid = members := by
  unfold get_room_users
  simp only [hg]

/-! ### Sample states used by the witnesses -/

/-- A sample registry state: users `A` (channel 1), `B` (channel 2) and `C`
(channel 3), all three members of room `r1`. -/
def sampleState : ConnectionManager :=
  ⟨[("A", 1), ("B", 2), ("C", 3)],
   [("r1", ["A", "B", "C"])],
   [("A", ["r1"]), ("B", ["r1"]), ("C", ["r1"])]⟩

/-- A sample registry state in which `A` (channel 1) is the sole member of
room `r1`. -/
def soloState : ConnectionManager :=
  ⟨[("A", 1)], [("r1", ["A"])], [("A", ["r1"])]⟩

/-! ### The claims -/

/-- C1: for every sequence of register (`connect`) and unregister
(`disconnect`) operations applied to the initially empty manager, at most one
channel is associated with any user id (the key occurs at most once in the
connection map), and a register followed by a lookup returns the most
recently registered channel (`connect` replaces any existing entry; it is a
total function, so it never raises). -/
theorem C1_register_last_wins (ops : List RegOp) (u : String) (ws : Nat) :
    (keys (applyOps initialManager ops).active_connections).count u ≤ 1 ∧
    dictGet (connect (applyOps initialManager ops) ws u).active_connections u =
      some ws := by
  constructor
  · exact List.nodup_iff_count_le_one.mp (wf_applyOps wf_initialManager ops).1 u
  · rw [connect_active_get, if_pos rfl]

/-- C2: on a well-formed state satisfying the bidirectional membership
invariant, `join_room`, `leave_room` and `disconnect` all preserve the
invariant (user is in a room's member set iff the room is in the user's room
set, and no room is empty), and when a user is the sole member of a room,
leaving deletes the room, after which `get_room_users` returns the empty
list rather than an error. -/
theorem C2_membership_invariant (m : ConnectionManager) (u r : String)
    (hwf : WF m) (hinv : MemInv m) :
    MemInv (join_room m u r) ∧ MemInv (leave_room m u r) ∧
    MemInv (disconnect m u) ∧
    (dictGet m.rooms r = some [u] →
      dictGet (leave_room m u r).rooms r = none ∧
      get_room_users (leave_room m u r) r = []) := by
  refine ⟨inv_join hwf hinv u r, inv_leave hwf hinv u r,
    inv_disconnect hwf hinv u, ?_⟩
  intro hsole
  have hnone : dictGet (leave_room m u r).rooms r = none := by
    rw [leave_rooms_get m hwf.2.1, if_pos rfl, hsole]
    simp [dropKeyResult, setDiscard]
  refine ⟨hnone, ?_⟩
  unfold get_room_users
  simp only [hnone]

theorem C2_membership_invariant_witness :
    WF soloState ∧ MemInv soloState ∧
    (MemInv (join_room soloState "A" "r1") ∧
     MemInv (leave_room soloState "A" "r1") ∧
     MemInv (disconnect soloState "A") ∧
     (dictGet soloState.rooms "r1" = some ["A"] →
       dictGet (leave_room soloState "A" "r1").rooms "r1" = none ∧
       get_room_users (leave_room soloState "A" "r1") "r1" = [])) :=
  ⟨by decide, by decide,
   C2_membership_invariant soloState "A" "r1" (by decide) (by decide)⟩

/-- C3: when the channel write fails during `send_personal_message` to a
registered user `A` (the channel is broken), after the call `A` is no longer
online and `A` is absent from every room it was a member of: the write
failure triggers the full `disconnect` cascade. -/
theorem C3_write_failure_unregisters {μ : Type} (broken : List Nat)
    (m : ConnectionManager) (msg : μ) (A : String) (c : Nat)
    (hwf : WF m) (hinv : MemInv m)
    (hA : dictGet m.active_connections A = some c) (hbroken : c ∈ broken) :
    is_user_online (send_personal_message broken m msg A).1 A = false ∧
    ∀ r ∈ get_user_rooms m A,
      A ∉ get_room_users (send_personal_message broken m msg A).1 r := by
  have hred : (send_personal_message broken m msg A).1 = disconnect m A := by
    unfold send_personal_message
    simp only [hA]
    rw [if_pos hbroken]
  rw [hred]
  have hgone := gone_disconnect_self hwf hinv A
  exact ⟨hgone.1, fun r _ => hgone.2 r⟩

theorem C3_write_failure_unregisters_witness :
    WF sampleState ∧ MemInv sampleState ∧
    dictGet sampleState.active_connections "A" = some 1 ∧ 1 ∈ [1] ∧
    (is_user_online (send_personal_message [1] sampleState (0 : Nat) "A").1 "A" = false ∧
     ∀ r ∈ get_user_rooms sampleState "A",
       "A" ∉ get_room_users (send_personal_message [1] sampleState (0 : Nat) "A").1 r) :=
  ⟨by decide, by decide, by decide, by decide,
   C3_write_failure_unregisters [1] sampleState (0 : Nat) "A" 1
     (by decide) (by decide) (by decide) (by decide)⟩

/-- C4 counterexample: the claim says the return value of
`send_personal_message` indicates whether a live channel was found and that a
write failure is reported to the caller.  The Python body has no `return`
statement, so the returned value (third component) is `None` on every path:
it is identical in a state where `A`'s channel is found (a delivery happens)
and in the empty state where no channel is found, and it is still `None`
when the write fails.  The return value therefore indicates nothing. -/
theorem C4_counterexample :
    (send_personal_message ([] : List Nat) sampleState (0 : Nat) "A").2.2 =
      (send_personal_message ([] : List Nat) initialManager (0 : Nat) "A").2.2 ∧
    (send_personal_message ([] : List Nat) sampleState (0 : Nat) "A").2.1 ≠ [] ∧
    (send_personal_message ([] : List Nat) initialManager (0 : Nat) "A").2.1 = [] ∧
    (send_personal_message [1] sampleState (0 : Nat) "A").2.2 = none := by
  decide

/-- C4 (amended): `send_personal_message` always returns `None`, so neither
the presence of a channel nor a write failure is reported to the caller
through the return value; a write failure instead unregisters the target (the
delivery list is empty and the target is offline afterwards), and when no
channel is found the call leaves the state unchanged and delivers nothing
(silent drop). -/
theorem C4_return_value (broken : List Nat) {μ : Type}
    (m : ConnectionManager) (msg : μ) (u : String) (hwf : WF m) :
    (send_personal_message broken m msg u).2.2 = none ∧
    (∀ c, dictGet m.active_connections u = some c → c ∈ broken →
      is_user_online (send_personal_message broken m msg u).1 u = false ∧
      (send_personal_message broken m msg u).2.1 = []) ∧
    (dictGet m.active_connections u = none →
      (send_personal_message broken m msg u).1 = m ∧
      (send_personal_message broken m msg u).2.1 = []) := by
  refine ⟨?_, ?_, ?_⟩
  · unfold send_personal_message
    cases hg : dictGet m.active_connections u with
    | none => rfl
    | some c =>
      by_cases hb : c ∈ broken
      · simp only [if_pos hb]
      · simp only [if_neg hb]
  · intro c hc hb
    have hred : (send_personal_message broken m msg u).1 = disconnect m u := by
      unfold send_personal_message
      simp only [hc]
      rw [if_pos hb]
    have hdel : (send_personal_message broken m msg u).2.1 = [] := by
      unfold send_personal_message
      simp only [hc]
      rw [if_pos hb]
    refine ⟨?_, hdel⟩
    rw [hred]
    unfold is_user_online
    rw [disconnect_active_get m hwf.1, if_pos rfl]
    rfl
  · intro hc
    unfold send_personal_message
    simp only [hc]
    simp

theorem C4_return_value_witness :
    WF sampleState ∧
    ((send_personal_message [1] sampleState (0 : Nat) "A").2.2 = none ∧
     (is_user_online (send_personal_message [1] sampleState (0 : Nat) "A").1 "A" = false ∧
      (send_personal_message [1] sampleState (0 : Nat) "A").2.1 = [])) :=
  ⟨by decide,
   (C4_return_value [1] sampleState (0 : Nat) "A" (by decide)).1,
   (C4_return_value [1] sampleState (0 : Nat) "A" (by decide)).2.1 1
     (by decide) (by decide)⟩

/-- C5: for `send_to_room` and `broadcast`, a write failure to one recipient
does not prevent delivery to the remaining recipients (every non-excluded
member or connection whose channel is live receives the message), and every
recipient whose write fails is unregistered by the end of the call: offline
and absent from every room. -/
theorem C5_partial_failure_isolation {μ : Type} (broken : List Nat)
    (m : ConnectionManager) (msg : μ) (rid : String) (excl : Option String)
    (hwf : WF m) (hinv : MemInv m) :
    (∀ u c, u ∈ get_room_users m rid → some u ≠ excl →
      dictGet m.active_connections u = some c → c ∉ broken →
      (u, c, msg) ∈ (send_to_room broken m msg rid excl).2) ∧
    (∀ u c, u ∈ get_room_users m rid → some u ≠ excl →
      dictGet m.active_connections u = some c → c ∈ broken →
      is_user_online (send_to_room broken m msg rid excl).1 u = false ∧
      ∀ r, u ∉ get_room_users (send_to_room broken m msg rid excl).1 r) ∧
    (∀ u c, dictGet m.active_connections u = some c → some u ≠ excl →
      c ∉ broken → (u, c, msg) ∈ (broadcast broken m msg excl).2) ∧
    (∀ u c, dictGet m.active_connections u = some c → some u ≠ excl →
      c ∈ broken →
      is_user_online (broadcast broken m msg excl).1 u = false ∧
      ∀ r, u ∉ get_room_users (broadcast broken m msg excl).1 r) := by
  refine ⟨?_, ?_, ?_, ?_⟩
  · intro u c hu hne hc hl
    cases hg : dictGet m.rooms rid with
    | none =>
      unfold get_room_users at hu
      rw [hg] at hu
      cases hu
    | some members =>
      rw [get_room_users_eq_of_get hg] at hu
      rw [send_to_room_eq_some broken msg excl hg]
      exact roomPass_mem hu hne hc hl
  · intro u c hu hne hc hl
    cases hg : dictGet m.rooms rid with
    | none =>
      unfold get_room_users at hu
      rw [hg] at hu
      cases hu
    | some members =>
      rw [get_room_users_eq_of_get hg] at hu
      rw [send_to_room_eq_some broken msg excl hg]
      have hfail : u ∈ (roomPass broken m msg excl members).2 :=
        roomPass_failed hu hne hc hl
      have hgone := gone_foldl_disconnect hwf hinv hfail
      exact ⟨hgone.1, hgone.2⟩
  · intro u c hc hne hl
    rw [broadcast_eq]
    exact broadcastPass_mem (dictGet_mem hc) hne hl
  · intro u c hc hne hl
    rw [broadcast_eq]
    have hfail : u ∈ (broadcastPass broken msg excl m.active_connections).2 :=
      broadcastPass_failed (dictGet_mem hc) hne hl
    have hgone := gone_foldl_disconnect hwf hinv hfail
    exact ⟨hgone.1, hgone.2⟩

theorem C5_partial_failure_isolation_witness :
    WF sampleState ∧ MemInv sampleState ∧
    ("C", 3, (0 : Nat)) ∈ (send_to_room [2] sampleState (0 : Nat) "r1" none).2 ∧
    is_user_online (send_to_room [2] sampleState (0 : Nat) "r1" none).1 "B" = false ∧
    ("C", 3, (0 : Nat)) ∈ (broadcast [2] sampleState (0 : Nat) none).2 ∧
    is_user_online (broadcast [2] sampleState (0 : Nat) none).1 "B" = false :=
  ⟨by decide, by decide,
   (C5_partial_failure_isolation [2] sampleState (0 : Nat) "r1" none
     (by decide) (by decide)).1 "C" 3 (by decide) (by decide) (by decide) (by decide),
   ((C5_partial_failure_isolation [2] sampleState (0 : Nat) "r1" none
     (by decide) (by decide)).2.1 "B" 2 (by decide) (by decide) (by decide) (by decide)).1,
   (C5_partial_failure_isolation [2] sampleState (0 : Nat) "r1" none
     (by decide) (by decide)).2.2.1 "C" 3 (by decide) (by decide) (by decide),
   ((C5_partial_failure_isolation [2] sampleState (0 : Nat) "r1" none
     (by decide) (by decide)).2.2.2 "B" 2 (by decide) (by decide) (by decide)).1⟩

/-- C6: `send_to_room` with an excluded user never delivers to that user or
to that user's channel (given that no other user shares the excluded user's
channel), even when the excluded user is a member of the room; every other
member with a live channel does receive the message. -/
theorem C6_exclude_never_delivered {μ : Type} (broken : List Nat)
    (m : ConnectionManager) (msg : μ) (rid A : String) (cA : Nat)
    (hA : dictGet m.active_connections A = some cA)
    (hinj : ∀ p ∈ m.active_connections, p.1 ≠ A → p.2 ≠ cA) :
    (∀ d ∈ (send_to_room broken m msg rid (some A)).2, d.1 ≠ A ∧ d.2.1 ≠ cA) ∧
    (∀ B cB, B ∈ get_room_users m rid → B ≠ A →
      dictGet m.active_connections B = some cB → cB ∉ broken →
      (B, cB, msg) ∈ (send_to_room broken m msg rid (some A)).2) := by
  constructor
  · intro d hd
    cases hg : dictGet m.rooms rid with
    | none =>
      rw [send_to_room_eq_none broken msg (some A) hg] at hd
      cases hd
    | some members =>
      rw [send_to_room_eq_some broken msg (some A) hg] at hd
      obtain ⟨-, hne, hc, -, -⟩ := roomPass_sound hd
      have hdA : d.1 ≠ A := fun h => hne (by rw [h])
      exact ⟨hdA, hinj (d.1, d.2.1) (dictGet_mem hc) hdA⟩
  · intro B cB hB hBA hc hl
    cases hg : dictGet m.rooms rid with
    | none =>
      unfold get_room_users at hB
      rw [hg] at hB
      cases hB
    | some members =>
      rw [get_room_users_eq_of_get hg] at hB
      rw [send_to_room_eq_some broken msg (some A) hg]
      exact roomPass_mem hB (fun h => hBA (by injection h)) hc hl

theorem C6_exclude_never_delivered_witness :
    dictGet sampleState.active_connections "A" = some 1 ∧
    (∀ d ∈ (send_to_room ([] : List Nat) sampleState (0 : Nat) "r1" (some "A")).2,
      d.1 ≠ "A" ∧ d.2.1 ≠ 1) ∧
    ("B", 2, (0 : Nat)) ∈ (send_to_room ([] : List Nat) sampleState (0 : Nat) "r1" (some "A")).2 :=
  ⟨by decide,
   (C6_exclude_never_delivered ([] : List Nat) sampleState (0 : Nat) "r1" "A" 1
     (by decide) (by decide)).1,
   (C6_exclude_never_delivered ([] : List Nat) sampleState (0 : Nat) "r1" "A" 1
     (by decide) (by decide)).2 "B" 2 (by decide) (by decide) (by decide) (by decide)⟩

/-- C7: on every well-formed state (duplicate-free dict keys, as Python
dicts guarantee), `leave_room` and `disconnect` are idempotent: calling
either twice yields exactly the same state as calling it once, and both are
a no-op on absent entries rather than an error (both are total functions). -/
theorem C7_idempotence (m : ConnectionManager) (u r : String) (hwf : WF m) :
    leave_room (leave_room m u r) u r = leave_room m u r ∧
    disconnect (disconnect m u) u = disconnect m u :=
  ⟨leave_room_idem hwf u r, disconnect_idem hwf u⟩

theorem C7_idempotence_witness :
    WF sampleState ∧
    (leave_room (leave_room sampleState "A" "r1") "A" "r1" =
      leave_room sampleState "A" "r1" ∧
     disconnect (disconnect sampleState "A") "A" = disconnect sampleState "A") :=
  ⟨by decide, C7_idempotence sampleState "A" "r1" (by decide)⟩

/-- C8: immediately after `set_user_online` the user id is in
`get_online_users` and an online status record with the fixed TTL
`STATUS_EXPIRE` has been written; immediately after `set_user_offline` the
user id is not in `get_online_users` and a TTL-bounded `"offline"` status
record has been written. -/
theorem C8_presence_marking (r : RedisState) (u status : String) (now : Nat) :
    u ∈ get_online_users (set_user_online r u status now) ∧
    dictGet (set_user_online r u status now).user_status u =
      some ⟨status, now, STATUS_EXPIRE⟩ ∧
    u ∉ get_online_users (set_user_offline r u now) ∧
    dictGet (set_user_offline r u now).user_status u =
      some ⟨"offline", now, STATUS_EXPIRE⟩ := by
  refine ⟨mem_setAdd_self _ _, dictGet_dictSet_self _ _ _, ?_,
    dictGet_dictSet_self _ _ _⟩
  simp [get_online_users, set_user_offline]

/-- C9: an inbound message whose type tag is not one of the recognized tags
is answered by `handle_message` with exactly one delivery: an `error`
envelope on the sender's own (live) channel; no other user receives
anything, no Redis typing call is made, and the registry state is unchanged
by the dispatch. -/
theorem C9_unknown_type_error_echo (broken : List Nat)
    (m : ConnectionManager) (user_id : String) (message : InMsg) (now : Nat)
    (c : Nat) (hunk : message.type ∉ recognizedTypes)
    (hc : dictGet m.active_connections user_id = some c)
    (hlive : c ∉ broken) :
    handle_message broken m user_id message now =
      (m, [(user_id, c, OutMsg.error (unknownTypeText message.type) now)], []) := by
  simp only [recognizedTypes, List.mem_cons, List.mem_singleton, not_or] at hunk
  obtain ⟨h1, h2, h3, h4, h5, h6, h7, -⟩ := hunk
  unfold handle_message
  rw [if_neg h1, if_neg h2, if_neg h3, if_neg h4, if_neg h5, if_neg h6,
    if_neg h7]
  unfold send_personal_message
  simp only [hc]
  rw [if_neg hlive]

theorem C9_unknown_type_error_echo_witness :
    ({ type := some "bogus", data := {} } : InMsg).type ∉ recognizedTypes ∧
    dictGet sampleState.active_connections "A" = some 1 ∧ (1 : Nat) ∉ ([] : List Nat) ∧
    handle_message ([] : List Nat) sampleState "A"
      ({ type := some "bogus", data := {} } : InMsg) 0 =
      (sampleState, [("A", 1, OutMsg.error (unknownTypeText (some "bogus")) 0)], []) :=
  ⟨by decide, by decide, by decide,
   C9_unknown_type_error_echo ([] : List Nat) sampleState "A"
     ({ type := some "bogus", data := {} } : InMsg) 0 1
     (by decide) (by decide) (by decide)⟩

/-- C10: re-registering an already registered user that belongs to at least
one room replaces only the stored channel: the room map and the user's room
map are unchanged (so every room's member set is unchanged), the lookup now
returns the new channel, and other users' channels are untouched. -/
theorem C10_reregister_frame (m : ConnectionManager) (ws c : Nat) (u : String)
    (rs : List String) (hreg : dictGet m.active_connections u = some c)
    (hrooms : dictGet m.user_rooms u = some rs) (hne : rs ≠ []) :
    (connect m ws u).rooms = m.rooms ∧
    (connect m ws u).user_rooms = m.user_rooms ∧
    dictGet (connect m ws u).active_connections u = some ws ∧
    (∀ u', u' ≠ u → dictGet (connect m ws u).active_connections u' =
      dictGet m.active_connections u') := by
  refine ⟨connect_rooms m ws u, ?_, ?_, ?_⟩
  · unfold connect
    simp only [hrooms]
  · rw [connect_active_get, if_pos rfl]
  · intro u' hu'
    rw [connect_active_get, if_neg hu']

theorem C10_reregister_frame_witness :
    dictGet sampleState.active_connections "A" = some 1 ∧
    dictGet sampleState.user_rooms "A" = some ["r1"] ∧ (["r1"] : List String) ≠ [] ∧
    ((connect sampleState 9 "A").rooms = sampleState.rooms ∧
     (connect sampleState 9 "A").user_rooms = sampleState.user_rooms ∧
     dictGet (connect sampleState 9 "A").active_connections "A" = some 9 ∧
     (∀ u', u' ≠ "A" → dictGet (connect sampleState 9 "A").active_connections u' =
       dictGet sampleState.active_connections u')) :=
  ⟨by decide, by decide, by decide,
   C10_reregister_frame sampleState 9 1 "A" ["r1"] (by decide) (by decide)
     (by decide)⟩
